import Mathlib

set_option maxRecDepth 100000

/-
Verification of the certificate-chain issuer in src/secret/tls.go (package
secret).  The Go function GenerateTLS builds a three-tier X.509 chain (root
CA, server certificate, client certificate) and returns six PEM blocks.

Shallow embedding conventions:
  - Machine randomness, RSA key generation and the failure behaviour of the
    standard-library primitives are injected through an explicit Env record,
    following the dependency-injection reading of the design notes.  A key
    pair is identified by an abstract natural number (its material); the
    public half of key k is k itself, and a signature made with private key
    k verifies exactly against public key k.
  - The DER document produced by x509.CreateCertificate is modelled as an
    injective byte serialization (encodeCert) of the record of fields the
    source puts into the template, together with the subject public key, the
    issuer identity and the signing key; parseCertificate is its inverse.
  - pem.Encode and base64 framing are modelled concretely at the byte and
    character level, with proved decode-after-encode round trips.
  - time.ParseDuration is modelled faithfully on characters; the fractional
    part is computed with exact integer arithmetic where Go uses float64.
-/

namespace Secret

/-- Fuel-driven worker for encNat (structural recursion keeps the definition
reducible in the kernel); with fuel at least n it emits the little-endian
base-255 digits of n (each digit < 255) terminated by the byte 255. -/
def encNatAux : Nat → Nat → List Nat
  | 0, _ => [255]
  | fuel + 1, n => if n = 0 then [255] else (n % 255) :: encNatAux fuel (n / 255)

/-- Self-delimiting byte encoding of a natural number: little-endian base-255
digits (each digit < 255) terminated by the byte 255. -/
def encNat (n : Nat) : List Nat := encNatAux n n

/-- Decoder for encNat; returns the value and the remaining bytes. -/
def decNat : List Nat → Option (Nat × List Nat)
  | [] => none
  | b :: rest =>
    if b = 255 then some (0, rest)
    else
      match decNat rest with
      | some (m, r) => some (b + 255 * m, r)
      | none => none

theorem decNat_encNatAux :
    ∀ (fuel n : Nat), n ≤ fuel → ∀ r, decNat (encNatAux fuel n ++ r) = some (n, r)
  | 0, n, h, r => by
    have h0 : n = 0 := by omega
    simp [h0, encNatAux, decNat]
  | fuel + 1, n, h, r => by
    by_cases h0 : n = 0
    · simp [h0, encNatAux, decNat]
    · have hdiv : n / 255 ≤ fuel := by
        have := Nat.div_lt_self (Nat.pos_of_ne_zero h0) (by omega : 1 < 255)
        omega
      have hrec := decNat_encNatAux fuel (n / 255) hdiv r
      simp only [encNatAux, if_neg h0, List.cons_append, decNat,
        if_neg (by omega : ¬ n % 255 = 255), List.append_eq]
      rw [hrec]
      simp [Nat.mod_add_div]

theorem decNat_encNat (n : Nat) (r : List Nat) : decNat (encNat n ++ r) = some (n, r) :=
  decNat_encNatAux n n le_rfl r

theorem decNat_encNat_nil (n : Nat) : decNat (encNat n) = some (n, []) := by
  have := decNat_encNat n []
  simpa using this

theorem encNatAux_lt : ∀ (fuel n : Nat), ∀ b ∈ encNatAux fuel n, b < 256
  | 0, n => by simp [encNatAux]
  | fuel + 1, n => by
    by_cases h0 : n = 0
    · simp [encNatAux, h0]
    · intro b hb
      simp only [encNatAux, if_neg h0] at hb
      rcases List.mem_cons.mp hb with rfl | h2
      · have : n % 255 < 255 := Nat.mod_lt _ (by omega)
        omega
      · exact encNatAux_lt fuel (n / 255) b h2

theorem encNat_lt (n : Nat) : ∀ b ∈ encNat n, b < 256 := encNatAux_lt n n

/-- Sign-and-magnitude byte encoding of an integer. -/
def encInt (i : Int) : List Nat :=
  if i < 0 then 1 :: encNat (-i).toNat else 0 :: encNat i.toNat

/-- Decoder for encInt. -/
def decInt : List Nat → Option (Int × List Nat)
  | [] => none
  | s :: rest =>
    if s = 0 then
      match decNat rest with
      | some (m, r) => some ((m : Int), r)
      | none => none
    else if s = 1 then
      match decNat rest with
      | some (m, r) => some (-(m : Int), r)
      | none => none
    else none

theorem decInt_encInt (i : Int) (r : List Nat) : decInt (encInt i ++ r) = some (i, r) := by
  by_cases h : i < 0
  · simp only [encInt, if_pos h, List.cons_append, decInt, decNat_encNat]
    norm_num
    omega
  · simp only [encInt, if_neg h, List.cons_append, decInt, decNat_encNat]
    norm_num
    omega

/-- Byte encoding of a boolean. -/
def encBool (b : Bool) : List Nat := [if b then 1 else 0]

/-- Decoder for encBool. -/
def decBool : List Nat → Option (Bool × List Nat)
  | [] => none
  | b :: rest =>
    if b = 1 then some (true, rest)
    else if b = 0 then some (false, rest)
    else none

theorem decBool_encBool (b : Bool) (r : List Nat) : decBool (encBool b ++ r) = some (b, r) := by
  cases b <;> simp [encBool, decBool]

/-- Length-prefixed encoding of a list, given an element encoder. -/
def encListWith (f : α → List Nat) (xs : List α) : List Nat :=
  encNat xs.length ++ (xs.map f).flatten

/-- Decode a fixed number of elements with a given element decoder. -/
def decParts (g : List Nat → Option (α × List Nat)) : Nat → List Nat → Option (List α × List Nat)
  | 0, bs => some ([], bs)
  | n + 1, bs =>
    match g bs with
    | none => none
    | some (x, r) =>
      match decParts g n r with
      | none => none
      | some (xs, r2) => some (x :: xs, r2)

/-- Decoder for encListWith. -/
def decListWith (g : List Nat → Option (α × List Nat)) (bs : List Nat) :
    Option (List α × List Nat) :=
  match decNat bs with
  | none => none
  | some (n, r) => decParts g n r

theorem decParts_flatten {f : α → List Nat} {g : List Nat → Option (α × List Nat)}
    (hg : ∀ x r, g (f x ++ r) = some (x, r)) :
    ∀ (xs : List α) (r : List Nat), decParts g xs.length ((xs.map f).flatten ++ r) = some (xs, r)
  | [], r => by simp [decParts]
  | x :: xs, r => by
    have hrec := decParts_flatten hg xs r
    simp only [List.map_cons, List.flatten_cons, List.length_cons, List.append_assoc, decParts,
      hg, hrec]

theorem decListWith_encListWith {f : α → List Nat} {g : List Nat → Option (α × List Nat)}
    (hg : ∀ x r, g (f x ++ r) = some (x, r)) (xs : List α) (r : List Nat) :
    decListWith g (encListWith f xs ++ r) = some (xs, r) := by
  simp only [encListWith, decListWith, List.append_assoc, decNat_encNat,
    decParts_flatten hg]

theorem encListWith_lt {f : α → List Nat} (xs : List α)
    (hf : ∀ x ∈ xs, ∀ b ∈ f x, b < 256) : ∀ b ∈ encListWith f xs, b < 256 := by
  intro b hb
  rcases List.mem_append.mp hb with h | h
  · exact encNat_lt _ b h
  · rcases List.mem_flatten.mp h with ⟨l, hl, hbl⟩
    rcases List.mem_map.mp hl with ⟨x, hx, rfl⟩
    exact hf x hx b hbl

/-- Byte encoding of a string: length-prefixed list of code points. -/
def encString (s : String) : List Nat :=
  encListWith (fun c => encNat c.toNat) s.data

/-- Decoder for a single character code. -/
def decCharCode (b : List Nat) : Option (Char × List Nat) :=
  match decNat b with
  | none => none
  | some (n, r) => some (Char.ofNat n, r)

/-- Decoder for encString. -/
def decString (bs : List Nat) : Option (String × List Nat) :=
  match decListWith decCharCode bs with
  | none => none
  | some (cs, r) => some (String.mk cs, r)

theorem mk_data (s : String) : String.mk s.data = s := rfl

theorem decString_encString (s : String) (r : List Nat) :
    decString (encString s ++ r) = some (s, r) := by
  have hg : ∀ (c : Char) (r2 : List Nat), decCharCode (encNat c.toNat ++ r2) = some (c, r2) := by
    intro c r2
    simp [decCharCode, decNat_encNat, Char.ofNat_toNat]
  rw [decString, encString,
    decListWith_encListWith (f := fun c => encNat c.toNat) (g := decCharCode) hg]

theorem encString_lt (s : String) : ∀ b ∈ encString s, b < 256 :=
  encListWith_lt s.data (fun x _ => encNat_lt x.toNat)

theorem encInt_lt (i : Int) : ∀ b ∈ encInt i, b < 256 := by
  intro b hb
  rcases (by by_cases h : i < 0 <;> simp [encInt, h] at hb <;> tauto :
    b = 1 ∨ b = 0 ∨ b ∈ encNat (-i).toNat ∨ b ∈ encNat i.toNat) with h | h | h | h
  · omega
  · omega
  · exact encNat_lt _ b h
  · exact encNat_lt _ b h

theorem encBool_lt (b : Bool) : ∀ x ∈ encBool b, x < 256 := by
  cases b <;> simp [encBool]

/-- Content of a signed certificate as the model of the DER document returned
by x509.CreateCertificate: the template fields the source sets, the subject
public key, the issuer identity taken from the parent template, and the key
the signature was made with. -/
structure SignedCert where
  serialNumber : Nat
  organization : List String
  commonName : String
  notBefore : Int
  notAfter : Int
  keyUsage : Nat
  extKeyUsage : List Nat
  basicConstraintsValid : Bool
  isCA : Bool
  ipAddresses : List (List Nat)
  dnsNames : List String
  publicKey : Nat
  issuerCommonName : String
  issuerSerial : Nat
  signatureKey : Nat
deriving DecidableEq

/-- Injective byte serialization of a signed certificate (the modelled DER). -/
def encodeCert (c : SignedCert) : List Nat :=
  encNat c.serialNumber ++ encListWith encString c.organization ++ encString c.commonName ++
  encInt c.notBefore ++ encInt c.notAfter ++ encNat c.keyUsage ++
  encListWith encNat c.extKeyUsage ++ encBool c.basicConstraintsValid ++ encBool c.isCA ++
  encListWith (encListWith encNat) c.ipAddresses ++ encListWith encString c.dnsNames ++
  encNat c.publicKey ++ encString c.issuerCommonName ++ encNat c.issuerSerial ++
  encNat c.signatureKey

/-- Model of x509.ParseCertificate restricted to the modelled DER format. -/
def parseCertificate (bs : List Nat) : Option SignedCert :=
  (decNat bs).bind fun (serialNumber, r) =>
  (decListWith decString r).bind fun (organization, r) =>
  (decString r).bind fun (commonName, r) =>
  (decInt r).bind fun (notBefore, r) =>
  (decInt r).bind fun (notAfter, r) =>
  (decNat r).bind fun (keyUsage, r) =>
  (decListWith decNat r).bind fun (extKeyUsage, r) =>
  (decBool r).bind fun (basicConstraintsValid, r) =>
  (decBool r).bind fun (isCA, r) =>
  (decListWith (decListWith decNat) r).bind fun (ipAddresses, r) =>
  (decListWith decString r).bind fun (dnsNames, r) =>
  (decNat r).bind fun (publicKey, r) =>
  (decString r).bind fun (issuerCommonName, r) =>
  (decNat r).bind fun (issuerSerial, r) =>
  (decNat r).bind fun (signatureKey, r) =>
  if r = [] then
    some { serialNumber, organization, commonName, notBefore, notAfter, keyUsage, extKeyUsage,
           basicConstraintsValid, isCA, ipAddresses, dnsNames, publicKey, issuerCommonName,
           issuerSerial, signatureKey }
  else none

theorem decListString_enc (xs : List String) (r : List Nat) :
    decListWith decString (encListWith encString xs ++ r) = some (xs, r) :=
  decListWith_encListWith decString_encString xs r

theorem decListNat_enc (xs : List Nat) (r : List Nat) :
    decListWith decNat (encListWith encNat xs ++ r) = some (xs, r) :=
  decListWith_encListWith decNat_encNat xs r

theorem decListIP_enc (xs : List (List Nat)) (r : List Nat) :
    decListWith (decListWith decNat) (encListWith (encListWith encNat) xs ++ r) = some (xs, r) :=
  decListWith_encListWith decListNat_enc xs r

theorem parseCertificate_encodeCert (c : SignedCert) : parseCertificate (encodeCert c) = some c := by
  obtain ⟨s, org, cn, nb, na, ku, eku, bcv, ica, ips, dns, pk, icn, iser, sk⟩ := c
  simp only [encodeCert, parseCertificate, List.append_assoc, decNat_encNat, decString_encString,
    decInt_encInt, decBool_encBool, decListString_enc, decListNat_enc, decListIP_enc,
    decNat_encNat_nil, Option.bind]
  simp

theorem encodeCert_lt (c : SignedCert) : ∀ b ∈ encodeCert c, b < 256 := by
  intro b hb
  simp only [encodeCert, List.mem_append] at hb
  rcases hb with
    ((((((((((((((h | h) | h) | h) | h) | h) | h) | h) | h) | h) | h) | h) | h) | h) | h)
  · exact encNat_lt _ b h
  · exact encListWith_lt _ (fun x _ => encString_lt x) b h
  · exact encString_lt _ b h
  · exact encInt_lt _ b h
  · exact encInt_lt _ b h
  · exact encNat_lt _ b h
  · exact encListWith_lt _ (fun x _ => encNat_lt x) b h
  · exact encBool_lt _ b h
  · exact encBool_lt _ b h
  · exact encListWith_lt _ (fun x _ => encListWith_lt x (fun y _ => encNat_lt y)) b h
  · exact encListWith_lt _ (fun x _ => encString_lt x) b h
  · exact encNat_lt _ b h
  · exact encString_lt _ b h
  · exact encNat_lt _ b h
  · exact encNat_lt _ b h

/-- Character of the standard base64 alphabet at a given index. -/
def b64Char (n : Nat) : Char :=
  if n < 26 then Char.ofNat (65 + n)
  else if n < 52 then Char.ofNat (97 + (n - 26))
  else if n < 62 then Char.ofNat (48 + (n - 52))
  else if n = 62 then '+'
  else '/'

/-- Index of a character in the standard base64 alphabet. -/
def b64Index (c : Char) : Option Nat :=
  let v := c.toNat
  if 65 ≤ v ∧ v ≤ 90 then some (v - 65)
  else if 97 ≤ v ∧ v ≤ 122 then some (26 + (v - 97))
  else if 48 ≤ v ∧ v ≤ 57 then some (52 + (v - 48))
  else if c = '+' then some 62
  else if c = '/' then some 63
  else none

theorem b64Index_b64Char : ∀ n < 64, b64Index (b64Char n) = some n := by decide

theorem b64Char_ne_pad : ∀ n < 64, b64Char n ≠ '=' := by decide

theorem b64Char_ne_nl : ∀ n < 64, b64Char n ≠ '\n' := by decide

/-- Standard base64 encoding of a byte list (model of encoding/base64 with
the standard alphabet and padding, as used by encoding/pem). -/
def base64Encode : List Nat → List Char
  | [] => []
  | [a] => [b64Char (a / 4), b64Char (a % 4 * 16), '=', '=']
  | [a, b] => [b64Char (a / 4), b64Char (a % 4 * 16 + b / 16), b64Char (b % 16 * 4), '=']
  | a :: b :: c :: rest =>
    b64Char (a / 4) :: b64Char (a % 4 * 16 + b / 16) :: b64Char (b % 16 * 4 + c / 64) ::
    b64Char (c % 64) :: base64Encode rest

/-- Standard base64 decoding (inverse of base64Encode). -/
def base64Decode : List Char → Option (List Nat)
  | [] => some []
  | w :: x :: y :: z :: rest =>
    if y = '=' ∧ z = '=' ∧ rest = [] then
      (b64Index w).bind fun i1 => (b64Index x).bind fun i2 =>
      some [i1 * 4 + i2 / 16]
    else if z = '=' ∧ rest = [] then
      (b64Index w).bind fun i1 => (b64Index x).bind fun i2 => (b64Index y).bind fun i3 =>
      some [i1 * 4 + i2 / 16, i2 % 16 * 16 + i3 / 4]
    else
      (b64Index w).bind fun i1 => (b64Index x).bind fun i2 => (b64Index y).bind fun i3 =>
      (b64Index z).bind fun i4 => (base64Decode rest).bind fun bs =>
      some ((i1 * 4 + i2 / 16) :: (i2 % 16 * 16 + i3 / 4) :: (i3 % 4 * 64 + i4) :: bs)
  | _ => none

theorem base64Decode_encode :
    ∀ bs : List Nat, (∀ b ∈ bs, b < 256) → base64Decode (base64Encode bs) = some bs
  | [], _ => rfl
  | [a], h => by
    have ha : a < 256 := h a (by simp)
    have h1 : a / 4 < 64 := by omega
    have h2 : a % 4 * 16 < 64 := by omega
    simp only [base64Encode, base64Decode]
    simp [b64Index_b64Char _ h1, b64Index_b64Char _ h2, Option.bind]
    omega
  | [a, b], h => by
    have ha : a < 256 := h a (by simp)
    have hb : b < 256 := h b (by simp)
    have h1 : a / 4 < 64 := by omega
    have h2 : a % 4 * 16 + b / 16 < 64 := by omega
    have h3 : b % 16 * 4 < 64 := by omega
    have hy : b64Char (b % 16 * 4) ≠ '=' := b64Char_ne_pad _ h3
    simp only [base64Encode, base64Decode]
    simp [hy, b64Index_b64Char _ h1, b64Index_b64Char _ h2, b64Index_b64Char _ h3, Option.bind]
    omega
  | a :: b :: c :: d :: rest, h => by
    have ha : a < 256 := h a (by simp)
    have hb : b < 256 := h b (by simp)
    have hc : c < 256 := h c (by simp)
    have h1 : a / 4 < 64 := by omega
    have h2 : a % 4 * 16 + b / 16 < 64 := by omega
    have h3 : b % 16 * 4 + c / 64 < 64 := by omega
    have h4 : c % 64 < 64 := by omega
    have hy : b64Char (b % 16 * 4 + c / 64) ≠ '=' := b64Char_ne_pad _ h3
    have hz : b64Char (c % 64) ≠ '=' := b64Char_ne_pad _ h4
    have hrec : base64Decode (base64Encode (d :: rest)) = some (d :: rest) :=
      base64Decode_encode (d :: rest) (fun x hx => h x (by simp [hx]))
    simp only [base64Encode, base64Decode]
    simp [hy, hz, hrec, b64Index_b64Char _ h1, b64Index_b64Char _ h2, b64Index_b64Char _ h3,
      b64Index_b64Char _ h4, Option.bind]
    omega
  | [a, b, c], h => by
    have ha : a < 256 := h a (by simp)
    have hb : b < 256 := h b (by simp)
    have hc : c < 256 := h c (by simp)
    have h1 : a / 4 < 64 := by omega
    have h2 : a % 4 * 16 + b / 16 < 64 := by omega
    have h3 : b % 16 * 4 + c / 64 < 64 := by omega
    have h4 : c % 64 < 64 := by omega
    have hy : b64Char (b % 16 * 4 + c / 64) ≠ '=' := b64Char_ne_pad _ h3
    have hz : b64Char (c % 64) ≠ '=' := b64Char_ne_pad _ h4
    simp only [base64Encode, base64Decode]
    simp [hy, hz, b64Index_b64Char _ h1, b64Index_b64Char _ h2, b64Index_b64Char _ h3,
      b64Index_b64Char _ h4, Option.bind]
    omega

theorem base64Encode_ne_nl :
    ∀ bs : List Nat, (∀ b ∈ bs, b < 256) → ∀ ch ∈ base64Encode bs, ch ≠ '\n'
  | [], _ => by simp [base64Encode]
  | [a], h => by
    have ha : a < 256 := h a (by simp)
    intro ch hch
    simp only [base64Encode, List.mem_cons, List.not_mem_nil, or_false] at hch
    rcases hch with rfl | rfl | rfl | rfl
    · exact b64Char_ne_nl _ (by omega)
    · exact b64Char_ne_nl _ (by omega)
    · decide
    · decide
  | [a, b], h => by
    have ha : a < 256 := h a (by simp)
    have hb : b < 256 := h b (by simp)
    intro ch hch
    simp only [base64Encode, List.mem_cons, List.not_mem_nil, or_false] at hch
    rcases hch with rfl | rfl | rfl | rfl
    · exact b64Char_ne_nl _ (by omega)
    · exact b64Char_ne_nl _ (by omega)
    · exact b64Char_ne_nl _ (by omega)
    · decide
  | a :: b :: c :: d :: rest, h => by
    have ha : a < 256 := h a (by simp)
    have hb : b < 256 := h b (by simp)
    have hc : c < 256 := h c (by simp)
    intro ch hch
    simp only [base64Encode, List.mem_cons] at hch
    rcases hch with rfl | rfl | rfl | rfl | hm
    · exact b64Char_ne_nl _ (by omega)
    · exact b64Char_ne_nl _ (by omega)
    · exact b64Char_ne_nl _ (by omega)
    · exact b64Char_ne_nl _ (by omega)
    · exact base64Encode_ne_nl (d :: rest) (fun x hx => h x (by simp [hx])) ch hm
  | [a, b, c], h => by
    have ha : a < 256 := h a (by simp)
    have hb : b < 256 := h b (by simp)
    have hc : c < 256 := h c (by simp)
    intro ch hch
    simp only [base64Encode, List.mem_cons, List.not_mem_nil, or_false] at hch
    rcases hch with rfl | rfl | rfl | rfl
    · exact b64Char_ne_nl _ (by omega)
    · exact b64Char_ne_nl _ (by omega)
    · exact b64Char_ne_nl _ (by omega)
    · exact b64Char_ne_nl _ (by omega)

/-- Fuel-driven worker for chunks64 (structural recursion keeps the
definition reducible in the kernel). -/
def chunks64Aux : Nat → List Char → List (List Char)
  | _, [] => []
  | 0, c :: cs => [c :: cs]
  | fuel + 1, c :: cs => ((c :: cs).take 64) :: chunks64Aux fuel ((c :: cs).drop 64)

/-- Split a character list into chunks of at most 64 characters, matching the
64-column line discipline of encoding/pem. -/
def chunks64 (s : List Char) : List (List Char) := chunks64Aux s.length s

theorem chunks64Aux_flatten : ∀ (fuel : Nat) (s : List Char), (chunks64Aux fuel s).flatten = s
  | fuel, [] => by cases fuel <;> simp [chunks64Aux]
  | 0, c :: cs => by simp [chunks64Aux]
  | fuel + 1, c :: cs => by
    rw [chunks64Aux]
    simp only [List.flatten_cons, chunks64Aux_flatten fuel ((c :: cs).drop 64),
      List.take_append_drop]

theorem chunks64_flatten (s : List Char) : (chunks64 s).flatten = s :=
  chunks64Aux_flatten s.length s

theorem chunks64_mem : ∀ (s : List Char), ∀ l ∈ chunks64 s, ∀ ch ∈ l, ch ∈ s := by
  intro s l hl ch hch
  have : ch ∈ (chunks64 s).flatten := List.mem_flatten.mpr ⟨l, hl, hch⟩
  rwa [chunks64_flatten s] at this

/-- Join lines with a trailing newline after each line. -/
def joinNL (ls : List (List Char)) : List Char :=
  (ls.map (fun l => l ++ ['\n'])).flatten

/-- Split a character list at a separator character (model of strings.Split
with a single-character separator). -/
def splitCharAux (sep : Char) : List Char → List Char → List (List Char)
  | cur, [] => [cur.reverse]
  | cur, c :: cs =>
    if c = sep then cur.reverse :: splitCharAux sep [] cs
    else splitCharAux sep (c :: cur) cs

def splitChar (sep : Char) (s : List Char) : List (List Char) :=
  splitCharAux sep [] s

theorem splitCharAux_line (sep : Char) :
    ∀ (l : List Char), sep ∉ l → ∀ (cur t : List Char),
      splitCharAux sep cur (l ++ sep :: t) = (cur.reverse ++ l) :: splitCharAux sep [] t := by
  intro l
  induction l with
  | nil => intro _ cur t; simp [splitCharAux]
  | cons c l ih =>
    intro hl cur t
    have hc : ¬ c = sep := fun h => hl (by simp [h])
    have hl2 : sep ∉ l := fun h => hl (by simp [h])
    simp only [List.cons_append, splitCharAux, if_neg hc, List.append_eq]
    rw [ih hl2 (c :: cur) t]
    simp

theorem splitChar_joinNL :
    ∀ ls : List (List Char), (∀ l ∈ ls, '\n' ∉ l) →
      splitChar '\n' (joinNL ls) = ls ++ [[]]
  | [], _ => by simp [splitChar, joinNL, splitCharAux]
  | l :: ls, h => by
    have h1 : '\n' ∉ l := h l (by simp)
    have h2 : ∀ x ∈ ls, '\n' ∉ x := fun x hx => h x (by simp [hx])
    have hrec := splitChar_joinNL ls h2
    simp only [joinNL, List.map_cons, List.flatten_cons, List.append_assoc, List.singleton_append]
    rw [splitChar, splitCharAux_line '\n' l h1 [] ((ls.map (fun x => x ++ ['\n'])).flatten)]
    simp only [List.reverse_nil, List.nil_append, List.cons_append]
    rw [show splitCharAux '\n' [] ((ls.map (fun x => x ++ ['\n'])).flatten)
        = splitChar '\n' (joinNL ls) from rfl, hrec]

/-- Strip an expected prefix from a character list. -/
def stripPrefixL : List Char → List Char → Option (List Char)
  | [], s => some s
  | _ :: _, [] => none
  | p :: ps, c :: cs => if c = p then stripPrefixL ps cs else none

theorem stripPrefixL_append (p r : List Char) : stripPrefixL p (p ++ r) = some r := by
  induction p with
  | nil => simp [stripPrefixL]
  | cons c p ih => simp [stripPrefixL, ih]

/-- Strip an expected suffix from a character list. -/
def stripSuffixL (suf s : List Char) : Option (List Char) :=
  (stripPrefixL suf.reverse s.reverse).map List.reverse

theorem stripSuffixL_append (s suf : List Char) : stripSuffixL suf (s ++ suf) = some s := by
  simp [stripSuffixL, List.reverse_append, stripPrefixL_append]

def beginMarker : List Char := "-----BEGIN ".data

def endMarker : List Char := "-----END ".data

def dashes : List Char := "-----".data

/-- Model of pem.Encode with nil headers: BEGIN line, base64 body in
64-column lines, END line, every line terminated by a newline. -/
def pemEncodeL (t : String) (bytes : List Nat) : List Char :=
  joinNL ((beginMarker ++ t.data ++ dashes) :: chunks64 (base64Encode bytes) ++
    [endMarker ++ t.data ++ dashes])

def pemEncode (t : String) (bytes : List Nat) : String :=
  String.mk (pemEncodeL t bytes)

/-- Model of pem.Decode on the output format of pemEncodeL: recover the block
type from the BEGIN line and the payload bytes from the base64 body. -/
def pemDecodeL (s : List Char) : Option (String × List Nat) :=
  match splitChar '\n' s with
  | [] => none
  | first :: rest =>
    (stripPrefixL beginMarker first).bind fun r1 =>
    (stripSuffixL dashes r1).bind fun tChars =>
    match rest.reverse with
    | [] => none
    | lastL :: r2 =>
      if lastL = [] then
        match r2 with
        | [] => none
        | endL :: bodyRev =>
          if endL = endMarker ++ tChars ++ dashes then
            (base64Decode bodyRev.reverse.flatten).bind fun bytes =>
            some (String.mk tChars, bytes)
          else none
      else none

def pemDecode (s : String) : Option (String × List Nat) :=
  pemDecodeL s.data

theorem pemDecode_pemEncode (t : String) (bytes : List Nat)
    (ht : '\n' ∉ t.data) (hb : ∀ b ∈ bytes, b < 256) :
    pemDecode (pemEncode t bytes) = some (t, bytes) := by
  have hbegin : '\n' ∉ beginMarker ++ t.data ++ dashes := by
    intro hmem
    rcases List.mem_append.mp hmem with hmem2 | hmem2
    · rcases List.mem_append.mp hmem2 with hmem3 | hmem3
      · revert hmem3; decide
      · exact ht hmem3
    · revert hmem2; decide
  have hend : '\n' ∉ endMarker ++ t.data ++ dashes := by
    intro hmem
    rcases List.mem_append.mp hmem with hmem2 | hmem2
    · rcases List.mem_append.mp hmem2 with hmem3 | hmem3
      · revert hmem3; decide
      · exact ht hmem3
    · revert hmem2; decide
  have hlines : ∀ l ∈ (beginMarker ++ t.data ++ dashes) :: chunks64 (base64Encode bytes) ++
      [endMarker ++ t.data ++ dashes], '\n' ∉ l := by
    intro l hl
    rcases List.mem_cons.mp hl with rfl | hl2
    · exact hbegin
    · rcases List.mem_append.mp hl2 with hl3 | hl3
      · intro hmem
        exact base64Encode_ne_nl bytes hb '\n'
          (chunks64_mem (base64Encode bytes) l hl3 '\n' hmem) rfl
      · rcases List.mem_singleton.mp hl3 with rfl
        exact hend
  have hsplit := splitChar_joinNL _ hlines
  rw [pemDecode, pemEncode, pemEncodeL]
  rw [show (String.mk (joinNL ((beginMarker ++ t.data ++ dashes) :: chunks64 (base64Encode bytes)
      ++ [endMarker ++ t.data ++ dashes]))).data
    = joinNL ((beginMarker ++ t.data ++ dashes) :: chunks64 (base64Encode bytes)
      ++ [endMarker ++ t.data ++ dashes]) from rfl]
  rw [pemDecodeL, hsplit]
  simp only [List.cons_append, List.append_assoc]
  rw [stripPrefixL_append beginMarker (t.data ++ dashes)]
  simp only [Option.bind]
  rw [stripSuffixL_append t.data dashes]
  simp only [Option.bind]
  have hrev : (chunks64 (base64Encode bytes) ++ (endMarker ++ (t.data ++ dashes)) :: ([] ++ [[]])).reverse
      = [] :: (endMarker ++ (t.data ++ dashes)) :: (chunks64 (base64Encode bytes)).reverse := by
    simp
  rw [hrev]
  simp [List.reverse_reverse, chunks64_flatten, base64Decode_encode bytes hb, mk_data]

def goQuote (s : String) : String := "\"" ++ s ++ "\""

def invalidDurationErr (orig : String) : String := "time: invalid duration " ++ goQuote orig

def missingUnitErr (orig : String) : String :=
  "time: missing unit in duration " ++ goQuote orig

def unknownUnitErr (u orig : String) : String :=
  "time: unknown unit " ++ goQuote u ++ " in duration " ++ goQuote orig

/-- Model of the leadingInt helper of time.ParseDuration: consume leading
decimal digits; none signals the overflow error. -/
def leadingIntAux : Nat → List Char → Option (Nat × List Char)
  | x, [] => some (x, [])
  | x, c :: s =>
    if c.isDigit then
      if x > 2 ^ 63 / 10 then none
      else
        let x2 := x * 10 + (c.toNat - 48)
        if x2 > 2 ^ 63 then none
        else leadingIntAux x2 s
    else some (x, c :: s)

/-- Model of the leadingFraction helper of time.ParseDuration: consume digits
after the decimal point, tracking the power-of-ten scale, saturating instead
of overflowing. -/
def leadingFractionAux : Nat → Nat → Bool → List Char → Nat × Nat × List Char
  | x, scale, _, [] => (x, scale, [])
  | x, scale, overflow, c :: s =>
    if c.isDigit then
      if overflow then leadingFractionAux x scale true s
      else if x > (2 ^ 63 - 1) / 10 then leadingFractionAux x scale true s
      else
        let y := x * 10 + (c.toNat - 48)
        if y > 2 ^ 63 then leadingFractionAux x scale true s
        else leadingFractionAux y (scale * 10) false s
    else (x, scale, c :: s)

/-- Unit table of time.ParseDuration, in nanoseconds. -/
def unitMap (u : String) : Option Nat :=
  if u = "ns" then some 1
  else if u = "us" then some 1000
  else if u = "µs" then some 1000
  else if u = "μs" then some 1000
  else if u = "ms" then some 1000000
  else if u = "s" then some 1000000000
  else if u = "m" then some 60000000000
  else if u = "h" then some 3600000000000
  else none

/-- Main loop of time.ParseDuration over the remaining characters.  The fuel
argument only bounds the recursion; every iteration consumes at least the
nonempty unit token, so fuel at least the length of the input suffices. -/
def parseDurationLoop (orig : String) : Nat → Nat → List Char → Except String Nat
  | _, d, [] => .ok d
  | 0, _, _ :: _ => .error (invalidDurationErr orig)
  | fuel + 1, d, c :: rest0 =>
    if ¬ (c = '.' ∨ c.isDigit) then .error (invalidDurationErr orig)
    else
      match leadingIntAux 0 (c :: rest0) with
      | none => .error (invalidDurationErr orig)
      | some (v, s1) =>
        let pre := decide (s1.length ≠ (c :: rest0).length)
        let fsp :=
          match s1 with
          | '.' :: afterDot =>
            let r := leadingFractionAux 0 1 false afterDot
            (r.1, r.2.1, r.2.2, decide (r.2.2.length ≠ afterDot.length))
          | _ => (0, 1, s1, false)
        let f := fsp.1
        let scale := fsp.2.1
        let s2 := fsp.2.2.1
        let post := fsp.2.2.2
        if pre = false ∧ post = false then .error (invalidDurationErr orig)
        else
          let unitChars := s2.takeWhile (fun ch => ¬ (ch = '.' ∨ ch.isDigit))
          let s3 := s2.dropWhile (fun ch => ¬ (ch = '.' ∨ ch.isDigit))
          if unitChars = [] then .error (missingUnitErr orig)
          else
            match unitMap (String.mk unitChars) with
            | none => .error (unknownUnitErr (String.mk unitChars) orig)
            | some unit =>
              if v > 2 ^ 63 / unit then .error (invalidDurationErr orig)
              else
                let v1 := v * unit
                let v2 := if f > 0 then v1 + f * unit / scale else v1
                if f > 0 ∧ v2 > 2 ^ 63 then .error (invalidDurationErr orig)
                else
                  let d2 := d + v2
                  if d2 > 2 ^ 63 then .error (invalidDurationErr orig)
                  else parseDurationLoop orig fuel d2 s3

/-- Model of Go time.ParseDuration returning nanoseconds.  The fractional
contribution is computed with exact integer arithmetic where Go uses a
float64 product. -/
def parseDuration (str : String) : Except String Int :=
  let orig := str
  let s0 := str.data
  let negAnd :=
    match s0 with
    | '-' :: rest => (true, rest)
    | '+' :: rest => (false, rest)
    | _ => (false, s0)
  let neg := negAnd.1
  let s := negAnd.2
  if s = ['0'] then .ok 0
  else if s = [] then .error (invalidDurationErr orig)
  else
    match parseDurationLoop orig (s.length + 1) 0 s with
    | .error e => .error e
    | .ok d =>
      if neg then .ok (-(d : Int))
      else if d > 2 ^ 63 - 1 then .error (invalidDurationErr orig)
      else .ok ((d : Int))

/-- Executable instantiation for the injected IP-literal parser: dotted-quad
IPv4 addresses (four decimal fields, each at most 255).  Only concrete
environments use it; the theorems quantify over the injected parser. -/
def charsToNat (cs : List Char) : Nat :=
  cs.foldl (fun a c => a * 10 + (c.toNat - 48)) 0

def netParseIP (s : String) : Option (List Nat) :=
  let parts := splitChar '.' s.data
  if parts.length = 4 ∧ parts.all (fun p =>
      decide (p ≠ []) && decide (p.length ≤ 3) && p.all (fun c => c.isDigit) &&
      decide (charsToNat p ≤ 255)) then
    some (parts.map charsToNat)
  else none

/-- Model of x509.MarshalPKCS1PrivateKey on the abstract key material: the
PKCS1 RSAPrivateKey DER format is represented by the tag byte 1 followed by
the encoded key material. -/
def marshalPKCS1PrivateKey (k : Nat) : List Nat := 1 :: encNat k

/-- Model of x509.ParsePKCS1PrivateKey: accepts exactly the PKCS1 format. -/
def parsePKCS1PrivateKey : List Nat → Option Nat
  | 1 :: rest =>
    match decNat rest with
    | some (k, []) => some k
    | _ => none
  | _ => none

/-- Model of x509.ParsePKCS8PrivateKey: a strict PKCS8 consumer expects the
PrivateKeyInfo format, represented by the distinct tag byte 8; PKCS1 bytes
are rejected. -/
def parsePKCS8PrivateKey : List Nat → Option Nat
  | 8 :: rest =>
    match decNat rest with
    | some (k, []) => some k
    | _ => none
  | _ => none

theorem parsePKCS1_marshal (k : Nat) : parsePKCS1PrivateKey (marshalPKCS1PrivateKey k) = some k := by
  simp [marshalPKCS1PrivateKey, parsePKCS1PrivateKey, decNat_encNat_nil]

theorem parsePKCS8_marshalPKCS1 (k : Nat) :
    parsePKCS8PrivateKey (marshalPKCS1PrivateKey k) = none := by
  simp [marshalPKCS1PrivateKey, parsePKCS8PrivateKey]

theorem marshalPKCS1_lt (k : Nat) : ∀ b ∈ marshalPKCS1PrivateKey k, b < 256 := by
  intro b hb
  rcases List.mem_cons.mp hb with rfl | h
  · omega
  · exact encNat_lt k b h

/-- Injected dependencies of GenerateTLS, following the design-note reading
of the source: the clock, the secure random source behind rand.Int and
rsa.GenerateKey (indexed by call order, so the two serial draws and the
three key generations are independent), the failure behaviour of
x509.CreateCertificate and pem.Encode per call, and the IP-literal parser
net.ParseIP.  A generated RSA key pair is an abstract natural number; the
public key of the pair k is k itself. -/
structure Env where
  now : Int
  randInt : Nat → Except String Nat
  generateKey : Nat → Except String Nat
  createCertErr : Nat → Option String
  pemEncodeErr : Nat → Option String
  parseIP : String → Option (List Nat)

/-- Go x509 key usage bit for digital signatures. -/
def KeyUsageDigitalSignature : Nat := 1

/-- Go x509 key usage bit for key encipherment. -/
def KeyUsageKeyEncipherment : Nat := 4

/-- Go x509 key usage bit for certificate signing. -/
def KeyUsageCertSign : Nat := 32

/-- Go x509 extended key usage code for server authentication. -/
def ExtKeyUsageServerAuth : Nat := 1

/-- Go x509 extended key usage code for client authentication. -/
def ExtKeyUsageClientAuth : Nat := 2

/-- The fields of x509.Certificate that the source sets on its templates. -/
structure Certificate where
  serialNumber : Nat
  organization : List String
  commonName : String
  notBefore : Int
  notAfter : Int
  keyUsage : Nat
  extKeyUsage : List Nat
  basicConstraintsValid : Bool
  isCA : Bool
  ipAddresses : List (List Nat) := []
  dnsNames : List String := []
deriving DecidableEq

/-- The CA template built by GenerateTLS (src/secret/tls.go lines 52 to 64). -/
def caTemplate (notBefore notAfter : Int) (serialNumber : Nat) : Certificate :=
  { serialNumber := serialNumber,
    organization := ["Banzai Cloud"],
    commonName := "Root CA",
    notBefore := notBefore,
    notAfter := notAfter,
    keyUsage := KeyUsageCertSign,
    extKeyUsage := [ExtKeyUsageServerAuth, ExtKeyUsageClientAuth],
    basicConstraintsValid := true,
    isCA := true }

/-- One iteration of the SAN loop of GenerateTLS (lines 101 to 107): a host
token parsed by net.ParseIP is appended to IPAddresses, any other token to
DNSNames. -/
def sanStep (pip : String → Option (List Nat)) (t : Certificate) (h : String) : Certificate :=
  match pip h with
  | some ip => { t with ipAddresses := t.ipAddresses ++ [ip] }
  | none => { t with dnsNames := t.dnsNames ++ [h] }

/-- Model of strings.Split(hosts, ",").  Splitting the empty string yields
the singleton list containing the empty token, as in Go. -/
def splitHosts (hosts : String) : List String :=
  (splitChar ',' hosts.data).map String.mk

/-- The server template built by GenerateTLS (lines 85 to 107), including
the SAN population loop. -/
def serverTemplate (pip : String → Option (List Nat)) (hosts : String)
    (notBefore notAfter : Int) (serialNumber : Nat) : Certificate :=
  (splitHosts hosts).foldl (sanStep pip)
    { serialNumber := serialNumber,
      organization := ["Banzai Cloud"],
      commonName := "Banzai Genereted Server Cert",
      notBefore := notBefore,
      notAfter := notAfter,
      keyUsage := KeyUsageDigitalSignature ||| KeyUsageKeyEncipherment,
      extKeyUsage := [ExtKeyUsageServerAuth],
      basicConstraintsValid := true,
      isCA := false }

/-- The client template built by GenerateTLS (lines 126 to 139); its serial
number is the constant 4 from new(big.Int).SetInt64(4). -/
def clientTemplate (notBefore notAfter : Int) : Certificate :=
  { serialNumber := 4,
    organization := ["Banzai Cloud"],
    commonName := "Banzai Genereted Client Cert",
    notBefore := notBefore,
    notAfter := notAfter,
    keyUsage := KeyUsageDigitalSignature,
    extKeyUsage := [ExtKeyUsageClientAuth],
    basicConstraintsValid := true,
    isCA := false }

/-- The signed-certificate content produced by x509.CreateCertificate from a
subject template, the parent (issuer) template, the subject public key and
the signing private key. -/
def signCert (tmpl parent : Certificate) (pub priv : Nat) : SignedCert :=
  { serialNumber := tmpl.serialNumber,
    organization := tmpl.organization,
    commonName := tmpl.commonName,
    notBefore := tmpl.notBefore,
    notAfter := tmpl.notAfter,
    keyUsage := tmpl.keyUsage,
    extKeyUsage := tmpl.extKeyUsage,
    basicConstraintsValid := tmpl.basicConstraintsValid,
    isCA := tmpl.isCA,
    ipAddresses := tmpl.ipAddresses,
    dnsNames := tmpl.dnsNames,
    publicKey := pub,
    issuerCommonName := parent.commonName,
    issuerSerial := parent.serialNumber,
    signatureKey := priv }

/-- Model of x509.CreateCertificate: with the injected failure absent for
this call, it returns the modelled DER bytes of the signed certificate. -/
def createCertificate (env : Env) (call : Nat) (tmpl parent : Certificate)
    (pub priv : Nat) : Except String (List Nat) :=
  match env.createCertErr call with
  | some e => .error e
  | none => .ok (encodeCert (signCert tmpl parent pub priv))

/-- Embedding of keyToBytes (lines 162 to 169): marshal the key in PKCS1
form and wrap it in a PEM block typed PRIVATE KEY. -/
def keyToBytes (env : Env) (call : Nat) (key : Nat) : Except String String :=
  let keyBytes := marshalPKCS1PrivateKey key
  match env.pemEncodeErr call with
  | some e => .error e
  | none => .ok (pemEncode "PRIVATE KEY" keyBytes)

/-- Embedding of certToBytes (lines 171 to 177): wrap the DER bytes in a PEM
block typed CERTIFICATE. -/
def certToBytes (env : Env) (call : Nat) (certBytes : List Nat) : Except String String :=
  match env.pemEncodeErr call with
  | some e => .error e
  | none => .ok (pemEncode "CERTIFICATE" certBytes)

/-- The six PEM fields returned by GenerateTLS (lines 18 to 25). -/
structure CertificateChain where
  CAKey : String
  CACert : String
  ServerKey : String
  ServerCert : String
  ClientKey : String
  ClientCert : String
deriving DecidableEq

/-- Embedding of GenerateTLS (lines 30 to 160).  The Go return pair
(chain pointer, error) is modelled directly: every error site returns
(none, the error) and the single success site returns (the chain, none).
Effectful calls take the injected environment together with their index in
program order. -/
def GenerateTLS (env : Env) (hosts validity : String) :
    Option CertificateChain × Option String :=
  let notBefore := env.now
  match parseDuration validity with
  | .error e => (none, some e)
  | .ok validityDuration =>
  let notAfter := notBefore + validityDuration
  match env.randInt 0 with
  | .error e => (none, some e)
  | .ok serialNumber =>
  match env.generateKey 0 with
  | .error e => (none, some e)
  | .ok caKey =>
  match keyToBytes env 0 caKey with
  | .error e => (none, some e)
  | .ok caKeyBytes =>
  match createCertificate env 0 (caTemplate notBefore notAfter serialNumber)
      (caTemplate notBefore notAfter serialNumber) caKey caKey with
  | .error e => (none, some e)
  | .ok caCert =>
  match certToBytes env 1 caCert with
  | .error e => (none, some e)
  | .ok caCertBytes =>
  match env.generateKey 1 with
  | .error e => (none, some e)
  | .ok serverKey =>
  match keyToBytes env 2 serverKey with
  | .error e => (none, some e)
  | .ok serverKeyBytes =>
  match env.randInt 1 with
  | .error e => (none, some e)
  | .ok serialNumber2 =>
  match createCertificate env 1 (serverTemplate env.parseIP hosts notBefore notAfter serialNumber2)
      (caTemplate notBefore notAfter serialNumber) serverKey caKey with
  | .error e => (none, some e)
  | .ok serverCert =>
  match certToBytes env 3 serverCert with
  | .error e => (none, some e)
  | .ok serverCertBytes =>
  match env.generateKey 2 with
  | .error e => (none, some e)
  | .ok clientKey =>
  match keyToBytes env 4 clientKey with
  | .error e => (none, some e)
  | .ok clientKeyBytes =>
  match createCertificate env 2 (clientTemplate notBefore notAfter)
      (caTemplate notBefore notAfter serialNumber) clientKey caKey with
  | .error e => (none, some e)
  | .ok clientCert =>
  match certToBytes env 5 clientCert with
  | .error e => (none, some e)
  | .ok clientCertBytes =>
  (some { CAKey := caKeyBytes,
          CACert := caCertBytes,
          ServerKey := serverKeyBytes,
          ServerCert := serverCertBytes,
          ClientKey := clientKeyBytes,
          ClientCert := clientCertBytes }, none)

/-- Decode the CA certificate PEM field back into the modelled certificate. -/
def chainCACert (cc : CertificateChain) : Option SignedCert :=
  (pemDecode cc.CACert).bind fun p =>
    if p.1 = "CERTIFICATE" then parseCertificate p.2 else none

/-- Decode the server certificate PEM field back into the modelled certificate. -/
def chainServerCert (cc : CertificateChain) : Option SignedCert :=
  (pemDecode cc.ServerCert).bind fun p =>
    if p.1 = "CERTIFICATE" then parseCertificate p.2 else none

/-- Decode the client certificate PEM field back into the modelled certificate. -/
def chainClientCert (cc : CertificateChain) : Option SignedCert :=
  (pemDecode cc.ClientCert).bind fun p =>
    if p.1 = "CERTIFICATE" then parseCertificate p.2 else none

/-- A signature check succeeds exactly against the public half of the key
that made the signature. -/
def verifiesAgainst (c : SignedCert) (pub : Nat) : Prop :=
  c.signatureKey = pub

/-- Environments whose random, key-generation, signing and encoding calls
all succeed (working entropy and encoders). -/
def EnvOk (env : Env) : Prop :=
  (∀ i, ∃ n, env.randInt i = .ok n) ∧ (∀ i, ∃ k, env.generateKey i = .ok k) ∧
  (∀ i, env.createCertErr i = none) ∧ (∀ i, env.pemEncodeErr i = none)

/-- Inversion of a successful run of GenerateTLS: the oracle calls that must
have succeeded and the exact PEM contents of the six returned fields. -/
theorem GenerateTLS_some (env : Env) (hosts validity : String) (cc : CertificateChain)
    (h : (GenerateTLS env hosts validity).1 = some cc) :
    ∃ d s1 ck sk s2 clk,
      parseDuration validity = .ok d ∧
      env.randInt 0 = .ok s1 ∧ env.generateKey 0 = .ok ck ∧
      env.generateKey 1 = .ok sk ∧ env.randInt 1 = .ok s2 ∧ env.generateKey 2 = .ok clk ∧
      (GenerateTLS env hosts validity).2 = none ∧
      cc = { CAKey := pemEncode "PRIVATE KEY" (marshalPKCS1PrivateKey ck),
             CACert := pemEncode "CERTIFICATE" (encodeCert (signCert
               (caTemplate env.now (env.now + d) s1) (caTemplate env.now (env.now + d) s1) ck ck)),
             ServerKey := pemEncode "PRIVATE KEY" (marshalPKCS1PrivateKey sk),
             ServerCert := pemEncode "CERTIFICATE" (encodeCert (signCert
               (serverTemplate env.parseIP hosts env.now (env.now + d) s2)
               (caTemplate env.now (env.now + d) s1) sk ck)),
             ClientKey := pemEncode "PRIVATE KEY" (marshalPKCS1PrivateKey clk),
             ClientCert := pemEncode "CERTIFICATE" (encodeCert (signCert
               (clientTemplate env.now (env.now + d))
               (caTemplate env.now (env.now + d) s1) clk ck)) } := by
  revert h
  unfold GenerateTLS keyToBytes certToBytes createCertificate
  cases hpd : parseDuration validity with
  | error e => intro h; simp at h
  | ok d =>
  cases hr0 : env.randInt 0 with
  | error e => intro h; simp at h
  | ok s1 =>
  cases hk0 : env.generateKey 0 with
  | error e => intro h; simp at h
  | ok ck =>
  cases hp0 : env.pemEncodeErr 0 with
  | some e => intro h; simp at h
  | none =>
  cases hc0 : env.createCertErr 0 with
  | some e => intro h; simp at h
  | none =>
  cases hp1 : env.pemEncodeErr 1 with
  | some e => intro h; simp at h
  | none =>
  cases hk1 : env.generateKey 1 with
  | error e => intro h; simp at h
  | ok sk =>
  cases hp2 : env.pemEncodeErr 2 with
  | some e => intro h; simp at h
  | none =>
  cases hr1 : env.randInt 1 with
  | error e => intro h; simp at h
  | ok s2 =>
  cases hc1 : env.createCertErr 1 with
  | some e => intro h; simp at h
  | none =>
  cases hp3 : env.pemEncodeErr 3 with
  | some e => intro h; simp at h
  | none =>
  cases hk2 : env.generateKey 2 with
  | error e => intro h; simp at h
  | ok clk =>
  cases hp4 : env.pemEncodeErr 4 with
  | some e => intro h; simp at h
  | none =>
  cases hc2 : env.createCertErr 2 with
  | some e => intro h; simp at h
  | none =>
  cases hp5 : env.pemEncodeErr 5 with
  | some e => intro h; simp at h
  | none =>
  intro h
  simp only [Option.some.injEq] at h
  exact ⟨d, s1, ck, sk, s2, clk, rfl, rfl, rfl, rfl, rfl, rfl, rfl, h.symm⟩

/-- With working entropy and encoders and a parsable validity string,
GenerateTLS succeeds. -/
theorem GenerateTLS_ok (env : Env) (hosts validity : String) (d : Int)
    (henv : EnvOk env) (hd : parseDuration validity = .ok d) :
    ∃ cc, GenerateTLS env hosts validity = (some cc, none) := by
  obtain ⟨hr, hk, hc, hp⟩ := henv
  obtain ⟨s1, hs1⟩ := hr 0
  obtain ⟨s2, hs2⟩ := hr 1
  obtain ⟨ck, hck⟩ := hk 0
  obtain ⟨sk, hsk⟩ := hk 1
  obtain ⟨clk, hclk⟩ := hk 2
  have heq : GenerateTLS env hosts validity =
      (some { CAKey := pemEncode "PRIVATE KEY" (marshalPKCS1PrivateKey ck),
              CACert := pemEncode "CERTIFICATE" (encodeCert (signCert
                (caTemplate env.now (env.now + d) s1)
                (caTemplate env.now (env.now + d) s1) ck ck)),
              ServerKey := pemEncode "PRIVATE KEY" (marshalPKCS1PrivateKey sk),
              ServerCert := pemEncode "CERTIFICATE" (encodeCert (signCert
                (serverTemplate env.parseIP hosts env.now (env.now + d) s2)
                (caTemplate env.now (env.now + d) s1) sk ck)),
              ClientKey := pemEncode "PRIVATE KEY" (marshalPKCS1PrivateKey clk),
              ClientCert := pemEncode "CERTIFICATE" (encodeCert (signCert
                (clientTemplate env.now (env.now + d))
                (caTemplate env.now (env.now + d) s1) clk ck)) }, none) := by
    unfold GenerateTLS keyToBytes certToBytes createCertificate
    rw [hd, hs1, hck, hp 0, hc 0, hp 1, hsk, hp 2, hs2, hc 1, hp 3, hclk, hp 4, hc 2, hp 5]
  exact ⟨_, heq⟩

/-- Effect of the SAN loop on the two SAN lists: the IP entries are the
parses of the tokens net.ParseIP accepts, in order, and the DNS entries are
the remaining tokens, in order. -/
theorem san_foldl (pip : String → Option (List Nat)) :
    ∀ (ts : List String) (t : Certificate),
      (ts.foldl (sanStep pip) t).ipAddresses = t.ipAddresses ++ ts.filterMap pip ∧
      (ts.foldl (sanStep pip) t).dnsNames = t.dnsNames ++ ts.filter (fun x => (pip x).isNone)
  | [], t => by simp
  | h :: ts, t => by
    cases hp : pip h with
    | some ip =>
      have h2 := san_foldl pip ts { t with ipAddresses := t.ipAddresses ++ [ip] }
      simp only [List.foldl_cons, sanStep, hp]
      constructor
      · rw [h2.1]; simp [List.filterMap_cons, hp]
      · rw [h2.2]; simp [List.filter_cons, hp]
    | none =>
      have h2 := san_foldl pip ts { t with dnsNames := t.dnsNames ++ [h] }
      simp only [List.foldl_cons, sanStep, hp]
      constructor
      · rw [h2.1]; simp [List.filterMap_cons, hp]
      · rw [h2.2]; simp [List.filter_cons, hp]

/-- The SAN loop changes nothing but the two SAN lists. -/
theorem san_foldl_fields (pip : String → Option (List Nat)) :
    ∀ (ts : List String) (t : Certificate),
      (ts.foldl (sanStep pip) t).serialNumber = t.serialNumber ∧
      (ts.foldl (sanStep pip) t).organization = t.organization ∧
      (ts.foldl (sanStep pip) t).commonName = t.commonName ∧
      (ts.foldl (sanStep pip) t).notBefore = t.notBefore ∧
      (ts.foldl (sanStep pip) t).notAfter = t.notAfter ∧
      (ts.foldl (sanStep pip) t).keyUsage = t.keyUsage ∧
      (ts.foldl (sanStep pip) t).extKeyUsage = t.extKeyUsage ∧
      (ts.foldl (sanStep pip) t).basicConstraintsValid = t.basicConstraintsValid ∧
      (ts.foldl (sanStep pip) t).isCA = t.isCA
  | [], t => by simp
  | h :: ts, t => by
    cases hp : pip h with
    | some ip =>
      have h2 := san_foldl_fields pip ts { t with ipAddresses := t.ipAddresses ++ [ip] }
      simpa only [List.foldl_cons, sanStep, hp] using h2
    | none =>
      have h2 := san_foldl_fields pip ts { t with dnsNames := t.dnsNames ++ [h] }
      simpa only [List.foldl_cons, sanStep, hp] using h2

/-- Decoding a chain field that holds a PEM-framed modelled DER certificate
recovers that certificate. -/
theorem chainCACert_pem (cc : CertificateChain) (c : SignedCert)
    (h : cc.CACert = pemEncode "CERTIFICATE" (encodeCert c)) : chainCACert cc = some c := by
  rw [chainCACert, h, pemDecode_pemEncode _ _ (by decide) (encodeCert_lt c)]
  simp [parseCertificate_encodeCert]

theorem chainServerCert_pem (cc : CertificateChain) (c : SignedCert)
    (h : cc.ServerCert = pemEncode "CERTIFICATE" (encodeCert c)) : chainServerCert cc = some c := by
  rw [chainServerCert, h, pemDecode_pemEncode _ _ (by decide) (encodeCert_lt c)]
  simp [parseCertificate_encodeCert]

theorem chainClientCert_pem (cc : CertificateChain) (c : SignedCert)
    (h : cc.ClientCert = pemEncode "CERTIFICATE" (encodeCert c)) : chainClientCert cc = some c := by
  rw [chainClientCert, h, pemDecode_pemEncode _ _ (by decide) (encodeCert_lt c)]
  simp [parseCertificate_encodeCert]

/-- Concrete environment used by the witnesses: fixed clock, working entropy
with two distinct serial draws, and the dotted-quad IP parser. -/
def okEnv : Env :=
  { now := 1000,
    randInt := fun i => .ok (if i = 0 then 11 else 22),
    generateKey := fun i => .ok (100 + i),
    createCertErr := fun _ => none,
    pemEncodeErr := fun _ => none,
    parseIP := netParseIP }

theorem okEnvOk : EnvOk okEnv :=
  ⟨fun _ => ⟨_, rfl⟩, fun _ => ⟨_, rfl⟩, fun _ => rfl, fun _ => rfl⟩

/-- Environment whose secure random source happens to draw 4 for the CA
serial number, a value rand.Int can legitimately return. -/
def collisionEnv : Env :=
  { okEnv with randInt := fun i => .ok (if i = 0 then 4 else 7) }

/-- Placeholder chain value for extracting concrete sample runs. -/
def blankChain : CertificateChain :=
  { CAKey := "", CACert := "", ServerKey := "", ServerCert := "",
    ClientKey := "", ClientCert := "" }

/-- Placeholder certificate value for extracting concrete sample runs. -/
def defaultCert : SignedCert := signCert (caTemplate 0 0 0) (caTemplate 0 0 0) 0 0

/-- The chain of a concrete successful run. -/
def sampleChain : CertificateChain :=
  ((GenerateTLS okEnv "example.com" "1h").1).getD blankChain

def sampleCA : SignedCert := (chainCACert sampleChain).getD defaultCert

def sampleServer : SignedCert := (chainServerCert sampleChain).getD defaultCert

def sampleClient : SignedCert := (chainClientCert sampleChain).getD defaultCert

/-- The chain of a concrete run with a mixed IP and DNS hosts list. -/
def sampleChainSAN : CertificateChain :=
  ((GenerateTLS okEnv "10.0.0.1,example.com" "1h").1).getD blankChain

def sampleServerSAN : SignedCert := (chainServerCert sampleChainSAN).getD defaultCert

/-- C1: for every hosts string and every validity string that parses as a
duration, under working entropy and encoders, GenerateTLS returns a chain in
which the CA certificate is self-signed (its signature verifies against its
own public key) and the server and client certificates verify against the
public key of the CA. -/
theorem C1_chain_signatures (env : Env) (hosts validity : String) (d : Int)
    (henv : EnvOk env) (hd : parseDuration validity = .ok d) :
    ∃ cc ca sv cl,
      GenerateTLS env hosts validity = (some cc, none) ∧
      chainCACert cc = some ca ∧ chainServerCert cc = some sv ∧
      chainClientCert cc = some cl ∧
      verifiesAgainst ca ca.publicKey ∧ verifiesAgainst sv ca.publicKey ∧
      verifiesAgainst cl ca.publicKey := by
  obtain ⟨cc, hcc⟩ := GenerateTLS_ok env hosts validity d henv hd
  obtain ⟨d2, s1, ck, sk, s2, clk, hpd2, hr0, hk0, hk1, hr1, hk2, hsnd, hcceq⟩ :=
    GenerateTLS_some env hosts validity cc (by rw [hcc])
  subst hcceq
  exact ⟨_, _, _, _, hcc, chainCACert_pem _ _ rfl, chainServerCert_pem _ _ rfl,
    chainClientCert_pem _ _ rfl, rfl, rfl, rfl⟩

theorem C1_witness :
    (GenerateTLS okEnv "example.com" "1h").2 = none ∧
    ((GenerateTLS okEnv "example.com" "1h").1.bind chainCACert).isSome := by
  obtain ⟨cc, ca, sv, cl, h1, h2, h3, h4, h5, h6, h7⟩ :=
    C1_chain_signatures okEnv "example.com" "1h" 3600000000000 okEnvOk (by rfl)
  rw [h1]
  exact ⟨rfl, by simp [Option.bind, h2]⟩

/-- C2: for every hosts string, the SAN entries of the server certificate
come exactly from the comma-separated tokens of hosts: the IP SAN entries
are the parses of the tokens accepted by the injected net.ParseIP in token
order, the DNS SAN entries are the remaining tokens in token order, and no
token accepted as an IP also appears among the DNS names. -/
theorem C2_server_san (env : Env) (hosts validity : String) (cc : CertificateChain)
    (sv : SignedCert) (hcc : (GenerateTLS env hosts validity).1 = some cc)
    (hsv : chainServerCert cc = some sv) :
    sv.ipAddresses = (splitHosts hosts).filterMap env.parseIP ∧
    sv.dnsNames = (splitHosts hosts).filter (fun t => (env.parseIP t).isNone) ∧
    ∀ t ∈ splitHosts hosts, (env.parseIP t).isSome → t ∉ sv.dnsNames := by
  obtain ⟨d, s1, ck, sk, s2, clk, hpd, hr0, hk0, hk1, hr1, hk2, hsnd, hcceq⟩ :=
    GenerateTLS_some env hosts validity cc hcc
  subst hcceq
  rw [chainServerCert_pem _ _ rfl] at hsv
  obtain rfl := Option.some.inj hsv
  have hs := san_foldl env.parseIP (splitHosts hosts)
    { serialNumber := s2, organization := ["Banzai Cloud"],
      commonName := "Banzai Genereted Server Cert", notBefore := env.now,
      notAfter := env.now + d,
      keyUsage := KeyUsageDigitalSignature ||| KeyUsageKeyEncipherment,
      extKeyUsage := [ExtKeyUsageServerAuth], basicConstraintsValid := true, isCA := false }
  refine ⟨?_, ?_, ?_⟩
  · simp only [signCert, serverTemplate]
    rw [hs.1]
    simp
  · simp only [signCert, serverTemplate]
    rw [hs.2]
    simp
  · intro t ht hsome
    simp only [signCert, serverTemplate]
    rw [hs.2]
    cases hpt : env.parseIP t with
    | some v => simp [List.mem_filter, hpt]
    | none => rw [hpt] at hsome; simp at hsome

theorem C2_witness :
    sampleServerSAN.ipAddresses = [[10, 0, 0, 1]] ∧
    sampleServerSAN.dnsNames = ["example.com"] := by
  have h := C2_server_san okEnv "10.0.0.1,example.com" "1h" sampleChainSAN sampleServerSAN
    (by decide) (by decide)
  exact ⟨h.1.trans (by decide), h.2.1.trans (by decide)⟩

/-- C3: the claim of pairwise distinct serial numbers is right as the
documented invariant, but the code violates it: the client serial number is
hardcoded to 4 while the CA serial is a random draw, so when rand.Int
legitimately returns 4 the CA and client certificates of one successful
chain share the serial number 4. -/
theorem C3_serial_collision :
    (GenerateTLS collisionEnv "example.com" "1h").2 = none ∧
    ((GenerateTLS collisionEnv "example.com" "1h").1.bind chainCACert).map
      SignedCert.serialNumber = some 4 ∧
    ((GenerateTLS collisionEnv "example.com" "1h").1.bind chainClientCert).map
      SignedCert.serialNumber = some 4 :=
  ⟨by decide, by decide, by decide⟩

/-- C4: in every successfully generated chain the validity window is shared:
notBefore and notAfter agree across the CA, server and client certificates,
and notAfter minus notBefore is exactly the parsed validity duration. -/
theorem C4_validity_window (env : Env) (hosts validity : String) (cc : CertificateChain)
    (ca sv cl : SignedCert) (d : Int)
    (hcc : (GenerateTLS env hosts validity).1 = some cc)
    (hca : chainCACert cc = some ca) (hsv : chainServerCert cc = some sv)
    (hcl : chainClientCert cc = some cl) (hd : parseDuration validity = .ok d) :
    ca.notBefore = sv.notBefore ∧ sv.notBefore = cl.notBefore ∧
    ca.notAfter = sv.notAfter ∧ sv.notAfter = cl.notAfter ∧
    ca.notAfter - ca.notBefore = d := by
  obtain ⟨d2, s1, ck, sk, s2, clk, hpd, hr0, hk0, hk1, hr1, hk2, hsnd, hcceq⟩ :=
    GenerateTLS_some env hosts validity cc hcc
  subst hcceq
  rw [chainCACert_pem _ _ rfl] at hca
  rw [chainServerCert_pem _ _ rfl] at hsv
  rw [chainClientCert_pem _ _ rfl] at hcl
  obtain rfl := Option.some.inj hca
  obtain rfl := Option.some.inj hsv
  obtain rfl := Option.some.inj hcl
  have hdd : d2 = d := by
    rw [hpd] at hd
    exact Except.ok.inj hd
  have hsf := san_foldl_fields env.parseIP (splitHosts hosts)
    { serialNumber := s2, organization := ["Banzai Cloud"],
      commonName := "Banzai Genereted Server Cert", notBefore := env.now,
      notAfter := env.now + d2,
      keyUsage := KeyUsageDigitalSignature ||| KeyUsageKeyEncipherment,
      extKeyUsage := [ExtKeyUsageServerAuth], basicConstraintsValid := true, isCA := false }
  refine ⟨?_, ?_, ?_, ?_, ?_⟩
  · simp only [signCert, serverTemplate, caTemplate]
    rw [hsf.2.2.2.1]
  · simp only [signCert, serverTemplate, clientTemplate]
    rw [hsf.2.2.2.1]
  · simp only [signCert, serverTemplate, caTemplate]
    rw [hsf.2.2.2.2.1]
  · simp only [signCert, serverTemplate, clientTemplate]
    rw [hsf.2.2.2.2.1]
  · simp only [signCert, caTemplate]
    omega

theorem C4_witness :
    sampleCA.notBefore = sampleServer.notBefore ∧
    sampleServer.notBefore = sampleClient.notBefore ∧
    sampleCA.notAfter = sampleServer.notAfter ∧
    sampleServer.notAfter = sampleClient.notAfter ∧
    sampleCA.notAfter - sampleCA.notBefore = 3600000000000 := by
  have h := C4_validity_window okEnv "example.com" "1h" sampleChain sampleCA sampleServer
    sampleClient 3600000000000 (by decide) (by decide) (by decide) (by decide) (by rfl)
  exact h

/-- C5 as stated fails on the code: strings.Split applied to the empty hosts
string yields the singleton list with the empty token, net.ParseIP rejects
the empty string, and so the server certificate of a successful run with
empty hosts carries exactly one DNS SAN entry (the empty string) instead of
no SAN entries at all. -/
theorem C5_counterexample :
    (GenerateTLS okEnv "" "1h").2 = none ∧
    ((GenerateTLS okEnv "" "1h").1.bind chainServerCert).map SignedCert.dnsNames
      = some [""] ∧
    ((GenerateTLS okEnv "" "1h").1.bind chainServerCert).map SignedCert.ipAddresses
      = some [] :=
  ⟨by decide, by decide, by decide⟩

/-- C5 amended: when the hosts argument is the empty string, GenerateTLS
still succeeds (given a parsable validity, working entropy and encoders, and
an IP parser rejecting the empty token as net.ParseIP does), and the server
certificate carries no IP SAN entries and exactly one DNS SAN entry, the
empty string. -/
theorem C5_empty_hosts (env : Env) (validity : String) (d : Int)
    (henv : EnvOk env) (hd : parseDuration validity = .ok d)
    (hip : env.parseIP "" = none) :
    ∃ cc sv, GenerateTLS env "" validity = (some cc, none) ∧
      chainServerCert cc = some sv ∧ sv.ipAddresses = [] ∧ sv.dnsNames = [""] := by
  obtain ⟨cc, hcc⟩ := GenerateTLS_ok env "" validity d henv hd
  obtain ⟨d2, s1, ck, sk, s2, clk, hpd, hr0, hk0, hk1, hr1, hk2, hsnd, hcceq⟩ :=
    GenerateTLS_some env "" validity cc (by rw [hcc])
  subst hcceq
  have hsplit : splitHosts "" = [""] := rfl
  refine ⟨_, _, hcc, chainServerCert_pem _ _ rfl, ?_, ?_⟩
  · simp [signCert, serverTemplate, hsplit, sanStep, hip]
  · simp [signCert, serverTemplate, hsplit, sanStep, hip]

theorem C5_witness :
    (GenerateTLS okEnv "" "1h").1.isSome ∧
    ((GenerateTLS okEnv "" "1h").1.bind chainServerCert).isSome := by
  obtain ⟨cc, sv, h1, h2, h3, h4⟩ :=
    C5_empty_hosts okEnv "1h" 3600000000000 okEnvOk (by rfl) (by rfl)
  rw [h1]
  exact ⟨rfl, by simp [Option.bind, h2]⟩

/-- C6: in every successfully generated chain, the CA certificate has key
usage exactly CertSign, the server certificate has key usage exactly
DigitalSignature combined with KeyEncipherment and extended key usage
exactly ServerAuth, and the client certificate has key usage exactly
DigitalSignature and extended key usage exactly ClientAuth. -/
theorem C6_key_usages (env : Env) (hosts validity : String) (cc : CertificateChain)
    (ca sv cl : SignedCert)
    (hcc : (GenerateTLS env hosts validity).1 = some cc)
    (hca : chainCACert cc = some ca) (hsv : chainServerCert cc = some sv)
    (hcl : chainClientCert cc = some cl) :
    ca.keyUsage = KeyUsageCertSign ∧
    sv.keyUsage = (KeyUsageDigitalSignature ||| KeyUsageKeyEncipherment) ∧
    sv.extKeyUsage = [ExtKeyUsageServerAuth] ∧
    cl.keyUsage = KeyUsageDigitalSignature ∧
    cl.extKeyUsage = [ExtKeyUsageClientAuth] := by
  obtain ⟨d, s1, ck, sk, s2, clk, hpd, hr0, hk0, hk1, hr1, hk2, hsnd, hcceq⟩ :=
    GenerateTLS_some env hosts validity cc hcc
  subst hcceq
  rw [chainCACert_pem _ _ rfl] at hca
  rw [chainServerCert_pem _ _ rfl] at hsv
  rw [chainClientCert_pem _ _ rfl] at hcl
  obtain rfl := Option.some.inj hca
  obtain rfl := Option.some.inj hsv
  obtain rfl := Option.some.inj hcl
  have hsf := san_foldl_fields env.parseIP (splitHosts hosts)
    { serialNumber := s2, organization := ["Banzai Cloud"],
      commonName := "Banzai Genereted Server Cert", notBefore := env.now,
      notAfter := env.now + d,
      keyUsage := KeyUsageDigitalSignature ||| KeyUsageKeyEncipherment,
      extKeyUsage := [ExtKeyUsageServerAuth], basicConstraintsValid := true, isCA := false }
  refine ⟨rfl, ?_, ?_, rfl, rfl⟩
  · simp only [signCert, serverTemplate]
    rw [hsf.2.2.2.2.2.1]
  · simp only [signCert, serverTemplate]
    rw [hsf.2.2.2.2.2.2.1]

theorem C6_witness :
    sampleCA.keyUsage = 32 ∧ sampleServer.keyUsage = 5 ∧
    sampleServer.extKeyUsage = [1] ∧ sampleClient.keyUsage = 1 ∧
    sampleClient.extKeyUsage = [2] := by
  have h := C6_key_usages okEnv "example.com" "1h" sampleChain sampleCA sampleServer
    sampleClient (by decide) (by decide) (by decide) (by decide)
  exact ⟨h.1.trans (by decide), h.2.1.trans (by decide), h.2.2.1.trans (by decide),
    h.2.2.2.1.trans (by decide), h.2.2.2.2.trans (by decide)⟩

/-- C7: for every validity string that does not parse as a duration,
GenerateTLS returns the parse error together with a nil chain, regardless of
the hosts argument and of the environment. -/
theorem C7_invalid_duration (env : Env) (hosts validity : String) (e : String)
    (hv : parseDuration validity = .error e) :
    GenerateTLS env hosts validity = (none, some e) := by
  unfold GenerateTLS
  rw [hv]

theorem C7_witness :
    GenerateTLS okEnv "example.com" "not-a-duration"
      = (none, some "time: invalid duration \"not-a-duration\"") :=
  C7_invalid_duration okEnv "example.com" "not-a-duration" _ (by rfl)

/-- Every run of GenerateTLS ends at an explicit return site of the source:
either an error site returning (nil, err) or the single success site. -/
theorem GenerateTLS_cases (env : Env) (hosts validity : String) :
    (∃ e, GenerateTLS env hosts validity = (none, some e)) ∨
    (∃ cc, GenerateTLS env hosts validity = (some cc, none)) := by
  unfold GenerateTLS keyToBytes certToBytes createCertificate
  cases parseDuration validity with
  | error e => exact Or.inl ⟨e, rfl⟩
  | ok d =>
  cases env.randInt 0 with
  | error e => exact Or.inl ⟨e, rfl⟩
  | ok s1 =>
  cases env.generateKey 0 with
  | error e => exact Or.inl ⟨e, rfl⟩
  | ok ck =>
  cases env.pemEncodeErr 0 with
  | some e => exact Or.inl ⟨e, rfl⟩
  | none =>
  cases env.createCertErr 0 with
  | some e => exact Or.inl ⟨e, rfl⟩
  | none =>
  cases env.pemEncodeErr 1 with
  | some e => exact Or.inl ⟨e, rfl⟩
  | none =>
  cases env.generateKey 1 with
  | error e => exact Or.inl ⟨e, rfl⟩
  | ok sk =>
  cases env.pemEncodeErr 2 with
  | some e => exact Or.inl ⟨e, rfl⟩
  | none =>
  cases env.randInt 1 with
  | error e => exact Or.inl ⟨e, rfl⟩
  | ok s2 =>
  cases env.createCertErr 1 with
  | some e => exact Or.inl ⟨e, rfl⟩
  | none =>
  cases env.pemEncodeErr 3 with
  | some e => exact Or.inl ⟨e, rfl⟩
  | none =>
  cases env.generateKey 2 with
  | error e => exact Or.inl ⟨e, rfl⟩
  | ok clk =>
  cases env.pemEncodeErr 4 with
  | some e => exact Or.inl ⟨e, rfl⟩
  | none =>
  cases env.createCertErr 2 with
  | some e => exact Or.inl ⟨e, rfl⟩
  | none =>
  cases env.pemEncodeErr 5 with
  | some e => exact Or.inl ⟨e, rfl⟩
  | none => exact Or.inr ⟨_, rfl⟩

/-- C8: GenerateTLS is atomic over its result: a run yields a nil chain
exactly when it yields an error (so any failing step surfaces its error with
no chain and a caller never sees a partial chain), and on success the error
is nil and all six fields are populated with decodable PEM blocks. -/
theorem C8_atomicity (env : Env) (hosts validity : String) :
    ((GenerateTLS env hosts validity).1 = none ↔
      ∃ e, (GenerateTLS env hosts validity).2 = some e) ∧
    ∀ cc, (GenerateTLS env hosts validity).1 = some cc →
      (GenerateTLS env hosts validity).2 = none ∧
      (pemDecode cc.CAKey).isSome ∧ (pemDecode cc.CACert).isSome ∧
      (pemDecode cc.ServerKey).isSome ∧ (pemDecode cc.ServerCert).isSome ∧
      (pemDecode cc.ClientKey).isSome ∧ (pemDecode cc.ClientCert).isSome := by
  rcases GenerateTLS_cases env hosts validity with ⟨e, he⟩ | ⟨cc0, hcc0⟩
  · rw [he]
    constructor
    · simp
    · intro cc h
      simp at h
  · obtain ⟨d, s1, ck, sk, s2, clk, hpd, hr0, hk0, hk1, hr1, hk2, hsnd, hcceq⟩ :=
      GenerateTLS_some env hosts validity cc0 (by rw [hcc0])
    rw [hcc0]
    constructor
    · simp
    · intro cc h
      simp only [Option.some.injEq] at h
      subst h
      subst hcceq
      refine ⟨rfl, ?_, ?_, ?_, ?_, ?_, ?_⟩
      · rw [show (pemEncode "PRIVATE KEY" (marshalPKCS1PrivateKey ck)) =
            pemEncode "PRIVATE KEY" (marshalPKCS1PrivateKey ck) from rfl,
          pemDecode_pemEncode _ _ (by decide) (marshalPKCS1_lt ck)]
        rfl
      · rw [pemDecode_pemEncode _ _ (by decide) (encodeCert_lt _)]
        rfl
      · rw [pemDecode_pemEncode _ _ (by decide) (marshalPKCS1_lt sk)]
        rfl
      · rw [pemDecode_pemEncode _ _ (by decide) (encodeCert_lt _)]
        rfl
      · rw [pemDecode_pemEncode _ _ (by decide) (marshalPKCS1_lt clk)]
        rfl
      · rw [pemDecode_pemEncode _ _ (by decide) (encodeCert_lt _)]
        rfl

theorem C8_witness :
    (pemDecode sampleChain.CAKey).isSome ∧ (pemDecode sampleChain.ClientCert).isSome := by
  have h := (C8_atomicity okEnv "example.com" "1h").2 sampleChain (by decide)
  exact ⟨h.2.1, h.2.2.2.2.2.2⟩

/-- C9: for every successfully generated chain, each of the six returned
fields is exactly a PEM encoding of its underlying DER payload, and PEM
decoding recovers the block type and exactly those DER bytes. -/
theorem C9_pem_roundtrip (env : Env) (hosts validity : String) (cc : CertificateChain)
    (hcc : (GenerateTLS env hosts validity).1 = some cc) :
    ∃ kb1 cb1 kb2 cb2 kb3 cb3,
      cc.CAKey = pemEncode "PRIVATE KEY" kb1 ∧
      pemDecode cc.CAKey = some ("PRIVATE KEY", kb1) ∧
      cc.CACert = pemEncode "CERTIFICATE" cb1 ∧
      pemDecode cc.CACert = some ("CERTIFICATE", cb1) ∧
      cc.ServerKey = pemEncode "PRIVATE KEY" kb2 ∧
      pemDecode cc.ServerKey = some ("PRIVATE KEY", kb2) ∧
      cc.ServerCert = pemEncode "CERTIFICATE" cb2 ∧
      pemDecode cc.ServerCert = some ("CERTIFICATE", cb2) ∧
      cc.ClientKey = pemEncode "PRIVATE KEY" kb3 ∧
      pemDecode cc.ClientKey = some ("PRIVATE KEY", kb3) ∧
      cc.ClientCert = pemEncode "CERTIFICATE" cb3 ∧
      pemDecode cc.ClientCert = some ("CERTIFICATE", cb3) := by
  obtain ⟨d, s1, ck, sk, s2, clk, hpd, hr0, hk0, hk1, hr1, hk2, hsnd, hcceq⟩ :=
    GenerateTLS_some env hosts validity cc hcc
  subst hcceq
  refine ⟨_, _, _, _, _, _, rfl, ?_, rfl, ?_, rfl, ?_, rfl, ?_, rfl, ?_, rfl, ?_⟩
  · exact pemDecode_pemEncode _ _ (by decide) (marshalPKCS1_lt ck)
  · exact pemDecode_pemEncode _ _ (by decide) (encodeCert_lt _)
  · exact pemDecode_pemEncode _ _ (by decide) (marshalPKCS1_lt sk)
  · exact pemDecode_pemEncode _ _ (by decide) (encodeCert_lt _)
  · exact pemDecode_pemEncode _ _ (by decide) (marshalPKCS1_lt clk)
  · exact pemDecode_pemEncode _ _ (by decide) (encodeCert_lt _)

theorem C9_witness :
    (pemDecode sampleChain.CACert).isSome ∧ (pemDecode sampleChain.ServerKey).isSome := by
  obtain ⟨kb1, cb1, kb2, cb2, kb3, cb3, e1, e2, e3, e4, e5, e6, e7, e8, e9, e10, e11, e12⟩ :=
    C9_pem_roundtrip okEnv "example.com" "1h" sampleChain (by decide)
  exact ⟨by simp [e4], by simp [e6]⟩

/-- C10: every private-key field of a generated chain is a PEM block whose
type label is exactly PRIVATE KEY while its body is the PKCS1 marshalling of
the generated key (recoverable by the PKCS1 parser), not the PKCS8 format
the label conventionally denotes, so the strict PKCS8 parser rejects the
body. -/
theorem C10_pkcs1_label (env : Env) (hosts validity : String) (cc : CertificateChain)
    (k0 k1 k2 : Nat)
    (hcc : (GenerateTLS env hosts validity).1 = some cc)
    (h0 : env.generateKey 0 = .ok k0) (h1 : env.generateKey 1 = .ok k1)
    (h2 : env.generateKey 2 = .ok k2) :
    pemDecode cc.CAKey = some ("PRIVATE KEY", marshalPKCS1PrivateKey k0) ∧
    pemDecode cc.ServerKey = some ("PRIVATE KEY", marshalPKCS1PrivateKey k1) ∧
    pemDecode cc.ClientKey = some ("PRIVATE KEY", marshalPKCS1PrivateKey k2) ∧
    parsePKCS1PrivateKey (marshalPKCS1PrivateKey k0) = some k0 ∧
    parsePKCS8PrivateKey (marshalPKCS1PrivateKey k0) = none ∧
    parsePKCS8PrivateKey (marshalPKCS1PrivateKey k1) = none ∧
    parsePKCS8PrivateKey (marshalPKCS1PrivateKey k2) = none := by
  obtain ⟨d, s1, ck, sk, s2, clk, hpd, hr0, hk0, hk1, hr1, hk2, hsnd, hcceq⟩ :=
    GenerateTLS_some env hosts validity cc hcc
  obtain rfl : ck = k0 := Except.ok.inj (hk0.symm.trans h0)
  obtain rfl : sk = k1 := Except.ok.inj (hk1.symm.trans h1)
  obtain rfl : clk = k2 := Except.ok.inj (hk2.symm.trans h2)
  subst hcceq
  exact ⟨pemDecode_pemEncode _ _ (by decide) (marshalPKCS1_lt _),
    pemDecode_pemEncode _ _ (by decide) (marshalPKCS1_lt _),
    pemDecode_pemEncode _ _ (by decide) (marshalPKCS1_lt _),
    parsePKCS1_marshal _, parsePKCS8_marshalPKCS1 _,
    parsePKCS8_marshalPKCS1 _, parsePKCS8_marshalPKCS1 _⟩

theorem C10_witness :
    pemDecode sampleChain.CAKey = some ("PRIVATE KEY", marshalPKCS1PrivateKey 100) ∧
    parsePKCS8PrivateKey (marshalPKCS1PrivateKey 100) = none := by
  have h := C10_pkcs1_label okEnv "example.com" "1h" sampleChain 100 101 102
    (by decide) (by rfl) (by rfl) (by rfl)
  exact ⟨h.1, h.2.2.2.2.1⟩

end Secret
